import Mathlib

/-!
# Verification of the linguist-rs language-identification core

A shallow embedding of the `linguist` crate (resolver, container, loaders,
path predicates, shebang parser) together with theorems that settle the
frozen claims about its specification.

Conventions of the embedding:
* Rust `String`/`OsString` become Lean `String` (the crate only ever builds
  `OsString`s from UTF-8 strings, so nothing is lost).
* Paths are plain strings; `Path::file_name` / `Path::extension` are modelled
  character-exactly for UTF-8 paths (see `fileName`, `extensionOf`).
* The external regex engines (`regex`, `fancy_regex`) are not part of the
  crate; where the code compiles or runs a dynamic pattern the embedding takes
  the engine's behaviour as an explicit functional parameter.  The few
  *fixed* regexes in the source (`^-[a-zA-Z]+$`, `^\$[a-zA-Z_]+$`,
  `^python[0-9]*\.[0-9]*`) are inlined as decidable character predicates.
* Rust `HashMap` iteration order is unspecified; wherever the code iterates a
  `HashMap` the embedding takes the iteration order as a parameter constrained
  to be a permutation of the insertion-ordered association list.
* A Rust panic (a reachable `unwrap()` of `None`) is modelled by an outer
  `Option` layer: `none` means the function panics.
-/

namespace Linguist

/-! ## Character-level string helpers (models of `std` string operations) -/

/-- Split a character list at every occurrence of `sep` (model of
`str::split` with a single-character separator; `"".split` yields `[""]`). -/
def splitOnChar (sep : Char) : List Char → List (List Char)
  | [] => [[]]
  | c :: cs =>
    let r := splitOnChar sep cs
    if c = sep then [] :: r
    else
      match r with
      | h :: t => (c :: h) :: t
      | [] => [[c]]

/-- Accumulating worker for `splitWhitespace`. -/
def wordsAux : List Char → List Char → List (List Char)
  | [], cur => if cur.isEmpty then [] else [cur.reverse]
  | c :: cs, cur =>
    if c.isWhitespace then
      if cur.isEmpty then wordsAux cs [] else cur.reverse :: wordsAux cs []
    else wordsAux cs (c :: cur)

/-- Model of Rust `str::split_whitespace`: maximal non-whitespace runs. -/
def splitWhitespace (s : String) : List String :=
  (wordsAux s.data []).map (fun l => ⟨l⟩)

/-- Model of Rust `str::trim`. -/
def strTrim (s : String) : String :=
  ⟨((s.data.dropWhile Char.isWhitespace).reverse.dropWhile Char.isWhitespace).reverse⟩

/-- Model of Rust `str::starts_with`. -/
def strStartsWith (s pre : String) : Bool :=
  pre.data.isPrefixOf s.data

/-- All suffixes of a character list, longest first. -/
def suffixes : List Char → List (List Char)
  | [] => [[]]
  | c :: cs => (c :: cs) :: suffixes cs

/-- Model of Rust `str::contains` with a literal substring needle. -/
def strContains (hay needle : String) : Bool :=
  (suffixes hay.data).any (fun t => needle.data.isPrefixOf t)

/-- Model of Rust `str::to_lowercase`, restricted to its ASCII action (Lean's
`Char.toLower` lowers exactly the ASCII uppercase range; the claims under
test concern ASCII case only). -/
def strToLower (s : String) : String :=
  ⟨s.data.map Char.toLower⟩

/-- Remove the first occurrence of `c` from a character list. -/
def removeFirstChar (c : Char) : List Char → List Char
  | [] => []
  | x :: xs => if x = c then xs else x :: removeFirstChar c xs

/-- Model of Rust `s.replacen('.', "", 1)` as used by the loaders: delete the
first occurrence of a dot, wherever it is. -/
def replacenDot (s : String) : String :=
  ⟨removeFirstChar '.' s.data⟩

/-! ## Model of `std::path` accessors -/

/-- Model of `Path::file_name` for UTF-8 paths: last component after dropping
empty and current-directory segments; `none` when the path terminates in
`..` or has no component at all. -/
def fileName (p : String) : Option String :=
  let segs := (splitOnChar '/' p.data).filter (fun c => ¬(c = [] ∨ c = ['.']))
  match segs.getLast? with
  | some l => if l = ['.', '.'] then none else some ⟨l⟩
  | none => none

/-- Model of `Path::extension`: the part of the file name after its last dot,
except that a sole leading dot (hidden file) does not count. -/
def extensionOf (p : String) : Option String :=
  match fileName p with
  | none => none
  | some f =>
    let parts := splitOnChar '.' f.data
    if parts.length ≤ 1 then none
    else if f.data.head? = some '.' ∧ parts.length = 2 then none
    else (parts.getLast?).map (fun l => (⟨l⟩ : String))

/-! ## Errors (src/linguist/src/error.rs and resolver.rs `LinguistError`);
payloads of the Rust variants are external values and are dropped. -/

inductive LinguistError where
  | DeserializationError
  | LanguageNotFound
  | FileNotFound
  | PatternCompileError
  | IOError
  deriving DecidableEq, Repr

/-! ## Data model (src/linguist/src/resolver.rs) -/

inductive Scope where
  | Programming
  | Markup
  | Data
  | Prose
  | Unknown
  deriving DecidableEq, Repr

/-- Model of `Scope::from(&str)` / `From<String>`: case-insensitive on the
`type` field, anything unknown maps to `Unknown`. -/
def Scope.ofString (s : String) : Scope :=
  match s.toLower with
  | "programming" => .Programming
  | "markup" => .Markup
  | "data" => .Data
  | "prose" => .Prose
  | _ => .Unknown

structure Language where
  parent : Option String
  name : String
  aliases : List String
  scope : Scope
  extensions : List String
  filenames : List String
  interpreters : List String
  color : Option String
  deriving DecidableEq, Repr

structure HeuristicRule where
  language : String
  extensions : List String
  patterns : List String
  deriving DecidableEq, Repr

/-- Model of `InMemoryLanguageContainer`: the `languages` vector in
registration order, and the `heuristics` `HashMap` as an association list
keyed by extension (key lookup in a `HashMap` is order-independent, so an
association list is a faithful model for lookups). -/
structure InMemoryLanguageContainer where
  languages : List Language
  heuristics : List (String × List HeuristicRule)
  deriving Repr

/-- Model of `InMemoryLanguageContainer::get_language_by_name` from
src/linguist/src/resolver.rs (the container type used with
`resolve_language`): exact, case-sensitive comparison with the stored name. -/
def getLanguageByName (c : InMemoryLanguageContainer) (name : String) : Option Language :=
  c.languages.find? (fun lang => lang.name == name)

/-- Model of `InMemoryLanguageContainer::get_language_by_name` from
src/linguist/src/container.rs (a second, independent copy of the container):
case-insensitive comparison of lowercased names. -/
def containerGetLanguageByName (c : InMemoryLanguageContainer) (name : String) : Option Language :=
  c.languages.find? (fun lang => strToLower lang.name == strToLower name)

/-- Model of `get_languages_by_extension` (resolver.rs): take the path's
extension, falling back to its file name; filter languages whose stored
extension list contains that value verbatim; `None` when the result is
empty. No lowercasing happens on either side. -/
def getLanguagesByExtension (c : InMemoryLanguageContainer) (file : String) :
    Option (List Language) :=
  let extOpt :=
    match extensionOf file with
    | some e => some e
    | none => fileName file
  match extOpt with
  | none => none
  | some e =>
    let cands := c.languages.filter (fun lang => lang.extensions.contains e)
    if cands.isEmpty then none else some cands

/-- Model of `get_languages_by_filename` (resolver.rs): the stored filename
list is compared against the **whole path** (`file.as_ref().as_os_str()`),
case-sensitively. -/
def getLanguagesByFilename (c : InMemoryLanguageContainer) (file : String) :
    Option (List Language) :=
  let cands := c.languages.filter (fun lang => lang.filenames.contains file)
  if cands.isEmpty then none else some cands

/-- Model of `get_languages_by_interpreter` (resolver.rs). -/
def getLanguagesByInterpreter (c : InMemoryLanguageContainer) (interp : String) :
    Option (List Language) :=
  let cands := c.languages.filter (fun lang => lang.interpreters.contains interp)
  if cands.isEmpty then none else some cands

/-- Model of `get_heuristics_by_extension` (resolver.rs): extension only, no
file-name fallback. -/
def getHeuristicsByExtension (c : InMemoryLanguageContainer) (file : String) :
    Option (List HeuristicRule) :=
  match extensionOf file with
  | none => none
  | some e => (c.heuristics.find? (fun p => p.1 == e)).map (fun p => p.2)

/-! ## Path predicates (src/linguist/src/utils.rs) -/

/-- Model of `is_dotfile`: the code tests whether the **display string of the
whole path** starts with a dot (`file.display().to_string().starts_with('.')`),
not the last path segment. -/
def is_dotfile (file : String) : Bool :=
  strStartsWith file "."

/-- Model of `is_binary` on the abstract file system: `none` is an unreadable
file (IO error), `some bytes` its content; the code reads at most the first
8000 bytes and reports whether one of them is a NUL byte. -/
def is_binary (bytes : Option (List Nat)) : Except LinguistError Bool :=
  match bytes with
  | none => .error .IOError
  | some bs => .ok ((bs.take 8000).any (fun b => b == 0))

/-- Model of `is_unsupported_regex_syntax` (utils.rs): substring screen for
lookaround, atomic groups, backreference `\1` and possessive `*+`. -/
def isUnsupportedRegex (input : String) : Bool :=
  strContains input "(?<" || strContains input "(?=" || strContains input "(?!" ||
    strContains input "(?>" || strContains input "\\1" || strContains input "*+"

/-! ## Corpus loaders (src/linguist/src/github.rs), modelled after YAML
parsing: the loaders' inputs are the already-deserialized shapes. -/

/-- Model of the `GhLanguageDef` deserialization target. -/
structure GhLanguageDef where
  color : Option String
  name : String
  scope : String
  aliases : Option (List String)
  extensions : Option (List String)
  filenames : Option (List String)
  interpreters : Option (List String)
  group : Option String
  deriving DecidableEq, Repr

/-- Model of `TryInto<Language> for GhLanguageDef` (github.rs lines 25-50):
stored extensions are the YAML values with their **first** dot removed
(`replacen('.', "", 1)`); nothing is lowercased. -/
def ghTryInto (d : GhLanguageDef) : Language :=
  { aliases := d.aliases.getD []
    color := d.color
    name := d.name
    scope := Scope.ofString d.scope
    parent := d.group
    filenames := d.filenames.getD []
    extensions := (d.extensions.getD []).map replacenDot
    interpreters := d.interpreters.getD [] }

/-- Model of the untagged `RuleLanguage` enum of heuristics.yml. -/
inductive RuleLanguage where
  | single (s : String)
  | multiple (ss : List String)
  deriving DecidableEq, Repr

/-- Model of `Display for RuleLanguage`: lists are joined with a pipe. -/
def RuleLanguage.toStr : RuleLanguage → String
  | .single s => s
  | .multiple ss => String.intercalate "|" ss

/-- Model of the untagged `PatternValue` enum of heuristics.yml. -/
inductive PatternValue where
  | single (s : String)
  | multiple (ss : List String)
  deriving DecidableEq, Repr

/-- Model of `Display for PatternValue`: lists are joined with a pipe. -/
def PatternValue.toStr : PatternValue → String
  | .single s => s
  | .multiple ss => String.intercalate "|" ss

/-- Model of the `NamedPattern` item inside a rule's `and` list. -/
structure NamedPatternRef where
  pattern : Option String
  named_pattern : Option PatternValue
  deriving DecidableEq, Repr

/-- Model of one heuristics.yml rule. -/
structure Rule where
  language : RuleLanguage
  and_rules : Option (List NamedPatternRef)
  pattern : Option PatternValue
  deriving DecidableEq, Repr

/-- Model of one heuristics.yml disambiguation block. -/
structure Disambiguation where
  extensions : List String
  rules : List Rule
  deriving DecidableEq, Repr

/-- Model of the parsed heuristics.yml document; `named_patterns` is a
`HashMap` in the source, modelled as an association list (only key lookups
are performed on it). -/
structure YamlContent where
  disambiguations : List Disambiguation
  named_patterns : List (String × RuleLanguage)
  deriving DecidableEq, Repr

/-- Key lookup in the `named_patterns` map. -/
def npLookup (nps : List (String × RuleLanguage)) (key : String) : Option RuleLanguage :=
  (nps.find? (fun p => p.1 == key)).map (fun p => p.2)

/-- Patterns contributed by one entry of a rule's `and` list: its direct
`pattern` (if any) followed by its resolved `named_pattern` reference(s);
unresolved names are dropped. -/
def andRefPatterns (nps : List (String × RuleLanguage)) (ref : NamedPatternRef) :
    List String :=
  (match ref.pattern with
   | some p => [p]
   | none => []) ++
  (match ref.named_pattern with
   | none => []
   | some (.single v) =>
     match npLookup nps v with
     | some r => [r.toStr]
     | none => []
   | some (.multiple vs) =>
     vs.foldl
       (fun acc v =>
         acc ++
           (match npLookup nps v with
            | some r => [r.toStr]
            | none => []))
       [])

/-- The ordered pattern list of one rule: the direct `pattern` first, then
the `and` entries in order. -/
def rulePatterns (nps : List (String × RuleLanguage)) (r : Rule) : List String :=
  (match r.pattern with
   | some p => [p.toStr]
   | none => []) ++
  (match r.and_rules with
   | none => []
   | some refs => refs.foldl (fun acc ref => acc ++ andRefPatterns nps ref) [])

/-- The `HeuristicRule` built for one rule of one disambiguation block
(github.rs lines 131-179): a multi-language rule collapses to the empty
string; block extensions have their first dot removed; no regex-dialect
filtering happens here. -/
def mkHeuristicRule (nps : List (String × RuleLanguage)) (d : Disambiguation)
    (r : Rule) : HeuristicRule :=
  { language :=
      match r.language with
      | .single v => v
      | .multiple _ => ""
    extensions := d.extensions.map replacenDot
    patterns := rulePatterns nps r }

/-- Model of `load_github_linguist_heuristics` after YAML parsing: one
`HeuristicRule` per rule per disambiguation block, in order (the nested
push-loops of github.rs lines 130-181). Unlike the vendor/documentation
loaders, no pattern is rejected. -/
def load_github_linguist_heuristics (data : YamlContent) : List HeuristicRule :=
  data.disambiguations.flatMap
    (fun d => d.rules.map (mkHeuristicRule data.named_patterns d))

/-- Model of `load_github_vendors` after YAML parsing: the push-loop keeps
exactly the patterns the dialect screen accepts. -/
def load_github_vendors (raw : List String) : List String :=
  raw.filter (fun r => !isUnsupportedRegex r)

/-- Model of `load_github_documentation` after YAML parsing: same filtering
as the vendor loader. -/
def load_github_documentation (raw : List String) : List String :=
  raw.filter (fun r => !isUnsupportedRegex r)

/-! ## Shebang parser (resolver.rs `resolve_languages_by_shebang`, utils.rs) -/

/-- The fixed regex `^-[a-zA-Z]+$` of the env-option screen. -/
def isEnvOptArg (s : String) : Bool :=
  match s.data with
  | '-' :: rest => !rest.isEmpty && rest.all Char.isAlpha
  | _ => false

/-- The fixed regex `^\$[a-zA-Z_]+$` of the env-variable screen. -/
def isEnvVarArg (s : String) : Bool :=
  match s.data with
  | '$' :: rest => !rest.isEmpty && rest.all (fun c => c.isAlpha || c = '_')
  | _ => false

/-- A field the env loop removes. -/
def isEnvDiscardable (s : String) : Bool :=
  isEnvOptArg s || isEnvVarArg s

/-- Model of the `while fields.len() > 2 { ... remove(1) ... }` loop, acting
on the tail `fields[1..]`: drop discardable leading fields while more than
one field of the tail remains. -/
def envStrip : List String → List String
  | t0 :: t1 :: ts =>
    if isEnvDiscardable t0 then envStrip (t1 :: ts) else t0 :: t1 :: ts
  | l => l

/-- The fixed regex `^python[0-9]*\.[0-9]*` used to spot versioned python
interpreters: a match exists exactly when the first non-digit character
after the literal `python` is a dot. -/
def isPythonVersioned (s : String) : Bool :=
  strStartsWith s "python" && (((s.data.drop 6).dropWhile Char.isDigit).head? == some '.')

/-- Model of `interpreter.split('.').next().unwrap()`. -/
def takeUntilDot (s : String) : String :=
  ⟨s.data.takeWhile (fun c => c ≠ '.')⟩

/-- The post-extraction fixups of the shebang parser, in source order: the
`sh` multi-line-exec replacement (whose outcome `mlexec` is an input, since
it scans further file lines through an external regex), the python version
truncation, and the untrusted `osascript -l` erasure. `line` is the trimmed
text after `#!`. -/
def shebangFixups (interp : String) (line : String) (mlexec : String) : String :=
  let i1 := if interp = "sh" then mlexec else interp
  let i2 := if isPythonVersioned i1 then takeUntilDot i1 else i1
  if i2 = "osascript" && strContains line "-l" then "" else i2

/-- Model of the interpreter-extraction part of `resolve_languages_by_shebang`
(resolver.rs lines 256-312). The outer `Option` models panics: `none` is a
reached `unwrap()` of a `None` (`Path::file_name()` on a field such as `..`).
`some none` is `Ok(None)` (no shebang / no usable interpreter field);
`some (some i)` is the extracted interpreter. -/
def resolveShebangInterpreter (line : String) (mlexec : String) :
    Option (Option String) :=
  if strStartsWith line "#!" = false then some none
  else
    let l := strTrim ⟨line.data.drop 2⟩
    match splitWhitespace l with
    | [] => some none
    | f0 :: rest =>
      match fileName f0 with
      | none => none
      | some i0 =>
        if i0 = "env" then
          match envStrip rest with
          | [] => some none
          | f1 :: _ =>
            match fileName f1 with
            | none => none
            | some i => some (some (shebangFixups i l mlexec))
        else some (some (shebangFixups i0 l mlexec))

/-- Model of the whole `resolve_languages_by_shebang` against the container:
composes interpreter extraction with the interpreter index. An unreadable
file is an `IOError`; the outer `Option` again models panics. -/
def resolve_languages_by_shebang (c : InMemoryLanguageContainer)
    (firstLine : Option String) (mlexec : String) :
    Option (Except LinguistError (Option (List Language))) :=
  match firstLine with
  | none => some (.error .IOError)
  | some line =>
    match resolveShebangInterpreter line mlexec with
    | none => none
    | some none => some (.ok none)
    | some (some interp) => some (.ok (getLanguagesByInterpreter c interp))

/-! ## Thin resolver wrappers (resolver.rs lines 199-217) -/

/-- Model of `resolve_languages_by_filename`. -/
def resolve_languages_by_filename (c : InMemoryLanguageContainer) (file : String) :
    Except LinguistError (List Language) :=
  match getLanguagesByFilename c file with
  | some langs => .ok langs
  | none => .error .LanguageNotFound

/-- Model of `resolve_languages_by_extension`. -/
def resolve_languages_by_extension (c : InMemoryLanguageContainer) (file : String) :
    Except LinguistError (List Language) :=
  match getLanguagesByExtension c file with
  | some langs => .ok langs
  | none => .error .LanguageNotFound

/-! ## Content heuristics (resolver.rs `resolve_language_by_content`).

The dynamic regex engine (`fancy_regex`) is external to the crate: the
embedding takes it as two oracles, `rc p` telling whether `Regex::new(p)`
succeeds and `rm p content` the outcome of `is_match` (`none` is a runtime
match error, which the code treats as a non-match). -/

/-- The `rule.patterns.join("|")` matcher source. -/
def joinPatterns (ps : List String) : String :=
  String.intercalate "|" ps

/-- The `for rule in rules` loop of `resolve_language_by_content`: a compile
failure of the current rule's matcher aborts the whole query with
`PatternCompileError` (the `?` operator), a match returns the rule's
language, otherwise the next rule is tried. -/
def contentLoop (c : InMemoryLanguageContainer) (rc : String → Bool)
    (rm : String → String → Option Bool) (content : String) :
    List HeuristicRule → Except LinguistError (Option Language)
  | [] => .error .LanguageNotFound
  | r :: rs =>
    let p := joinPatterns r.patterns
    if rc p = false then .error .PatternCompileError
    else
      match rm p content with
      | some true => .ok (getLanguageByName c r.language)
      | _ => contentLoop c rc rm content rs

/-- Model of `resolve_language_by_content`: an unreadable file is
`FileNotFound`; no rules for the extension, or no matching rule, is
`LanguageNotFound`. -/
def resolve_language_by_content (c : InMemoryLanguageContainer) (rc : String → Bool)
    (rm : String → String → Option Bool) (file : String) (content : Option String) :
    Except LinguistError (Option Language) :=
  match content with
  | none => .error .FileNotFound
  | some text =>
    match getHeuristicsByExtension c file with
    | some rules => contentLoop c rc rm text rules
    | none => .error .LanguageNotFound

/-! ## Vote accumulation and winner selection (resolver.rs lines 330-361) -/

/-- Model of `*probabilities.entry(name).or_insert(1) += 1` on the
insertion-ordered association list of the `HashMap`'s contents: a fresh
name enters at 2 (insert 1, then increment), a present one is bumped. -/
def bumpVote (votes : List (String × Nat)) (name : String) : List (String × Nat) :=
  if votes.any (fun p => p.1 == name) then
    votes.map (fun p => if p.1 == name then (p.1, p.2 + 1) else p)
  else votes ++ [(name, 2)]

/-- One evidence source's contribution: a vote per candidate, in order. -/
def addVotes (votes : List (String × Nat)) (cands : List Language) :
    List (String × Nat) :=
  cands.foldl (fun vs lang => bumpVote vs lang.name) votes

/-- The comparison key of `ordered.sort_by_key(|&(_, v)| v)`. -/
def voteLE (p q : String × Nat) : Prop :=
  p.2 ≤ q.2

instance : DecidableRel voteLE := fun p q => Nat.decLe p.2 q.2

instance : IsTotal (String × Nat) voteLE :=
  ⟨fun a b => Nat.le_total a.2 b.2⟩

instance : IsTrans (String × Nat) voteLE :=
  ⟨fun _ _ _ hab hbc => Nat.le_trans hab hbc⟩

/-- Model of `ordered.sort_by_key(|&(_, v)| v)`: Rust's `sort_by_key` is a
stable ascending sort, and `List.insertionSort` computes exactly the stable
ascending reordering. -/
def sortByVote (l : List (String × Nat)) : List (String × Nat) :=
  l.insertionSort voteLE

/-- Model of lines 350-357: stable-sort the iterated `(name, count)` pairs
ascending by count, reverse, and take the first name. -/
def selectWinner (l : List (String × Nat)) : Option String :=
  ((sortByVote l).reverse).head?.map (fun p => p.1)

/-! ## The resolver (resolver.rs `resolve_language`) -/

/-- The vote multiset accumulated by `resolve_language`, in insertion order:
filename candidates, then extension candidates, then the single content
candidate; each failing source is skipped (`if let Ok`). The shebang source
is **not** consulted. -/
def collectVotes (c : InMemoryLanguageContainer) (rc : String → Bool)
    (rm : String → String → Option Bool) (file : String) (content : Option String) :
    List (String × Nat) :=
  let v1 :=
    match resolve_languages_by_filename c file with
    | .ok cands => addVotes [] cands
    | .error _ => []
  let v2 :=
    match resolve_languages_by_extension c file with
    | .ok cands => addVotes v1 cands
    | .error _ => v1
  match resolve_language_by_content c rc rm file content with
  | .ok (some cand) => bumpVote v2 cand.name
  | _ => v2

/-- Model of `resolve_language` (resolver.rs lines 322-362): a binary file
short-circuits to `Ok(None)`; otherwise votes are collected from filename,
extension and content evidence only, the winner of the sorted-and-reversed
`HashMap` iteration is looked up by name, and an empty vote map is
`LanguageNotFound`. `bytes` is the on-disk content for the binary probe and
`content` the text read for heuristics (`none` = unreadable). `iter` is the
`HashMap` iteration order, unspecified in Rust and hence a parameter here
(theorems constrain it to permutations); the outer `Option` models the
`unwrap()` on line 358. -/
def resolve_language (c : InMemoryLanguageContainer) (rc : String → Bool)
    (rm : String → String → Option Bool)
    (iter : List (String × Nat) → List (String × Nat))
    (file : String) (bytes : Option (List Nat)) (content : Option String) :
    Option (Except LinguistError (Option Language)) :=
  match is_binary bytes with
  | .error e => some (.error e)
  | .ok true => some (.ok none)
  | .ok false =>
    let votes := collectVotes c rc rm file content
    match selectWinner (iter votes) with
    | none => some (.error .LanguageNotFound)
    | some name =>
      match getLanguageByName c name with
      | some lang => some (.ok (some lang))
      | none => none

/-! ## Concrete corpora used to exercise the claims -/

/-- A Python definition carrying only interpreter evidence. -/
def pythonLang : Language :=
  { parent := none, name := "Python", aliases := [], scope := .Programming,
    extensions := [], filenames := [], interpreters := ["python3"], color := none }

/-- A container whose only language is `pythonLang`. -/
def scriptContainer : InMemoryLanguageContainer :=
  ⟨[pythonLang], []⟩

/-- First of two languages sharing the extension `x`. -/
def langA : Language :=
  { parent := none, name := "Alpha", aliases := [], scope := .Programming,
    extensions := ["x"], filenames := [], interpreters := [], color := none }

/-- Second of two languages sharing the extension `x`. -/
def langB : Language :=
  { parent := none, name := "Beta", aliases := [], scope := .Programming,
    extensions := ["x"], filenames := [], interpreters := [], color := none }

/-- A container with `langA` registered before `langB`. -/
def tieContainer : InMemoryLanguageContainer :=
  ⟨[langA, langB], []⟩

/-- A language looked up by name, with an alias that is not a key. -/
def rustLang : Language :=
  { parent := none, name := "Rust", aliases := ["rs"], scope := .Programming,
    extensions := ["rs"], filenames := [], interpreters := [], color := none }

/-- A container whose only language is `rustLang`. -/
def nameContainer : InMemoryLanguageContainer :=
  ⟨[rustLang], []⟩

/-- A language whose corpus extension entry is the uppercase `.C`. -/
def cppLang : Language :=
  ghTryInto
    { color := none, name := "C++", scope := "programming", aliases := none,
      extensions := some [".C"], filenames := none, interpreters := none,
      group := none }

/-- A container whose only language is `cppLang`. -/
def cppContainer : InMemoryLanguageContainer :=
  ⟨[cppLang], []⟩

/-- A heuristic rule whose matcher fails to compile. -/
def ruleBad : HeuristicRule :=
  { language := "ObjC", extensions := ["h"], patterns := ["(?bad"] }

/-- A heuristic rule whose matcher compiles and matches everything. -/
def ruleGood : HeuristicRule :=
  { language := "ObjC", extensions := ["h"], patterns := ["good"] }

/-- The language named by the two heuristic rules. -/
def objcLang : Language :=
  { parent := none, name := "ObjC", aliases := [], scope := .Programming,
    extensions := ["h"], filenames := [], interpreters := [], color := none }

/-- A container with both heuristic rules registered under `h`. -/
def contentContainer : InMemoryLanguageContainer :=
  ⟨[objcLang], [("h", [ruleBad, ruleGood])]⟩

/-- Compile oracle under which exactly the pattern `good` compiles. -/
def rcGood : String → Bool := fun p => p == "good"

/-- Match oracle that matches every pattern against every text. -/
def rmTrue : String → String → Option Bool := fun _ _ => some true

/-- The byte sequence of an ASCII text, for the binary probe. -/
def asciiBytes (s : String) : List Nat :=
  s.data.map Char.toNat

/-- The container with every alias list emptied; used to state that aliases
are not a lookup key. -/
def stripAliases (c : InMemoryLanguageContainer) : InMemoryLanguageContainer :=
  ⟨c.languages.map (fun lang => { lang with aliases := [] }), c.heuristics⟩

/-! ## Shared helper lemmas -/

/-- Membership survives deleting one occurrence of a character. -/
theorem mem_of_mem_removeFirstChar {c ch : Char} {l : List Char}
    (h : ch ∈ removeFirstChar c l) : ch ∈ l := by
  induction l with
  | nil => simp [removeFirstChar] at h
  | cons x xs ih =>
    by_cases hx : x = c
    · simp only [removeFirstChar, if_pos hx] at h
      exact List.mem_cons_of_mem _ h
    · simp only [removeFirstChar, if_neg hx] at h
      rcases List.mem_cons.mp h with h | h
      · exact h ▸ List.mem_cons_self _ _
      · exact List.mem_cons_of_mem _ (ih h)

/-- The last element of a list, through `getLast?`, is a member. -/
theorem mem_of_getLast?_eq {α : Type} {l : List α} {a : α}
    (h : l.getLast? = some a) : a ∈ l := by
  have h' : l.reverse.head? = some a := by
    rw [List.head?_reverse]; exact h
  have := List.mem_of_mem_head? (l := l.reverse) (a := a) (by rw [h']; rfl)
  exact List.mem_reverse.mp this

/-- In a list sorted ascending by vote count, the last element's count
bounds every member's count. -/
theorem sorted_getLast?_max :
    ∀ (l : List (String × Nat)) (m : String × Nat), List.Sorted voteLE l →
      l.getLast? = some m → ∀ p ∈ l, p.2 ≤ m.2 := by
  intro l
  induction l with
  | nil => intro m _ h; cases h
  | cons x xs ih =>
    intro m hs hlast p hp
    rcases List.sorted_cons.mp hs with ⟨hx, hxs⟩
    cases xs with
    | nil =>
      simp only [List.getLast?_singleton, Option.some.injEq] at hlast
      rcases List.mem_singleton.mp hp with rfl
      exact hlast ▸ Nat.le_refl _
    | cons y ys =>
      rw [List.getLast?_cons_cons] at hlast
      have hmem : m ∈ y :: ys := mem_of_getLast?_eq hlast
      rcases List.mem_cons.mp hp with rfl | hp'
      · exact hx m hmem
      · exact ih m hxs hlast p hp'

/-! ## Claim C7 -/

/-- C7 counterexample: the last segment of `src/.hidden` is `.hidden`, which
starts with a dot and is not `.`, yet `is_dotfile` rejects it; and
`is_dotfile` accepts the path `.` itself. The claimed segment rule is false
on both inputs. -/
theorem c7_counterexample :
    fileName "src/.hidden" = some ".hidden" ∧
      strStartsWith ".hidden" "." = true ∧
      ".hidden" ≠ "." ∧
      is_dotfile "src/.hidden" = false ∧
      is_dotfile "." = true := by
  refine ⟨rfl, rfl, by simp, rfl, rfl⟩

/-- C7 (amended): `is_dotfile` tests whether the display string of the whole
path begins with a dot — equivalently, whether the path's first character is
a dot — so `src/.hidden` is not a dotfile while `.` is. -/
theorem c7_amended :
    (∀ p : String, is_dotfile p = true ↔ p.data.head? = some '.') ∧
      is_dotfile "src/.hidden" = false ∧
      is_dotfile ".hidden" = true ∧
      is_dotfile "." = true := by
  refine ⟨?_, rfl, rfl, rfl⟩
  intro p
  have hdot : (".").data = ['.'] := rfl
  rw [is_dotfile, strStartsWith, hdot, List.isPrefixOf_iff_prefix]
  constructor
  · rintro ⟨t, ht⟩
    rw [List.singleton_append] at ht
    rw [← ht]
    rfl
  · intro h
    cases hd : p.data with
    | nil => rw [hd] at h; cases h
    | cons c cs =>
      rw [hd, List.head?_cons, Option.some.injEq] at h
      subst h
      exact ⟨cs, rfl⟩

/-! ## Claim C10 -/

/-- C10: on a file whose first line is `#!..`, the interpreter field `..`
has no final path component, `Path::file_name()` is `None`, and the
`unwrap()` on it panics — modelled by the `none` result. The claim that
`resolve_languages_by_shebang` always returns a value is right about the
intended contract and wrong about the code. -/
theorem c10_shebang_panics :
    fileName ".." = none ∧
      resolveShebangInterpreter "#!.." "sh" = none ∧
      resolve_languages_by_shebang scriptContainer (some "#!..") "sh" = none := by
  exact ⟨rfl, rfl, rfl⟩

/-! ## Claim C3 -/

/-- C3 counterexample: a heuristics document whose single rule uses the
lookbehind pattern `(?<=x)foo` — flagged by the dialect screen — is still
installed by the heuristics loader, pattern included. -/
theorem c3_counterexample :
    load_github_linguist_heuristics
        { disambiguations :=
            [{ extensions := [".h"],
               rules := [{ language := .single "X", and_rules := none,
                           pattern := some (.single "(?<=x)foo") }] }],
          named_patterns := [] } =
      [{ language := "X", extensions := ["h"], patterns := ["(?<=x)foo"] }] ∧
      isUnsupportedRegex "(?<=x)foo" = true := by
  exact ⟨rfl, rfl⟩

/-- C3 (amended): the dialect screen is applied by the vendor and
documentation loaders, whose outputs contain no unsupported pattern, but the
heuristics loader installs every rule of every disambiguation block — none
is dropped, whatever its patterns. -/
theorem c3_amended :
    (∀ (raw : List String) (p : String), p ∈ load_github_vendors raw →
        isUnsupportedRegex p = false) ∧
      (∀ (raw : List String) (p : String), p ∈ load_github_documentation raw →
        isUnsupportedRegex p = false) ∧
      (∀ data : YamlContent,
        (load_github_linguist_heuristics data).length =
          (data.disambiguations.map (fun d => d.rules.length)).sum) := by
  refine ⟨?_, ?_, ?_⟩
  · intro raw p hp
    have := (List.mem_filter.mp hp).2
    simpa using this
  · intro raw p hp
    have := (List.mem_filter.mp hp).2
    simpa using this
  · intro data
    rw [load_github_linguist_heuristics, List.length_flatMap]
    have :
        (List.length ∘ fun d => List.map (mkHeuristicRule data.named_patterns d) d.rules) =
          fun d : Disambiguation => d.rules.length := by
      funext d
      simp
    rw [this]

/-- A two-rule heuristics document, one rule of unsupported dialect. -/
def twoRuleDoc : YamlContent :=
  { disambiguations :=
      [{ extensions := [".h"],
         rules := [{ language := .single "X", and_rules := none,
                     pattern := some (.single "(?<=x)foo") },
                   { language := .single "Y", and_rules := none,
                     pattern := some (.single "b") }] }],
    named_patterns := [] }

/-- C3 witness: the accepted vendor pattern of a mixed load is dialect-clean,
and a two-rule document installs both rules. -/
theorem c3_amended_witness :
    isUnsupportedRegex "^dist/" = false ∧
      (load_github_linguist_heuristics twoRuleDoc).length =
        (twoRuleDoc.disambiguations.map (fun d => d.rules.length)).sum := by
  constructor
  · exact c3_amended.1 ["^dist/", "(?<bad"] "^dist/" (by decide)
  · exact c3_amended.2.2 twoRuleDoc

/-! ## Claim C5 -/

/-- C5 counterexample: the container stores `Rust`, the query `rust` equals
it up to ASCII case, yet the resolver-module `get_language_by_name` — the
one `resolve_language` uses — returns nothing: its comparison is exact. -/
theorem c5_counterexample :
    rustLang ∈ nameContainer.languages ∧
      strToLower "Rust" = strToLower "rust" ∧
      getLanguageByName nameContainer "rust" = none := by
  exact ⟨List.mem_singleton.mpr rfl, rfl, rfl⟩

/-- C5 (amended): the crate has two `get_language_by_name` implementations.
The copy in container.rs is case-insensitive on the stored name (a query
matching some stored name up to case succeeds), but the copy in resolver.rs
— on the container type that `resolve_language` consumes — compares the
stored name exactly, so any result's name equals the query verbatim. In
both copies the alias lists play no role: emptying every alias list leaves
the lookup outcome unchanged. -/
theorem c5_amended :
    ∀ (c : InMemoryLanguageContainer) (s : String) (L : Language),
      L ∈ c.languages → strToLower L.name = strToLower s →
      (containerGetLanguageByName c s).isSome = true ∧
        (getLanguageByName c s).all (fun r => r.name == s) = true ∧
        (getLanguageByName (stripAliases c) s).isSome =
          (getLanguageByName c s).isSome ∧
        (containerGetLanguageByName (stripAliases c) s).isSome =
          (containerGetLanguageByName c s).isSome := by
  intro c s L hmem hcase
  refine ⟨?_, ?_, ?_, ?_⟩
  · rw [containerGetLanguageByName, List.find?_isSome]
    exact ⟨L, hmem, by rw [hcase]; exact beq_self_eq_true _⟩
  · rw [getLanguageByName]
    cases hf : c.languages.find? (fun lang => lang.name == s) with
    | none => rfl
    | some r =>
      have := List.find?_some hf
      simpa using this
  · have hpred :
        ((fun lang : Language => lang.name == s) ∘ fun lang =>
            { lang with aliases := [] }) =
          fun lang : Language => lang.name == s := rfl
    rw [getLanguageByName, getLanguageByName, stripAliases, List.find?_map, hpred]
    cases List.find? (fun lang : Language => lang.name == s) c.languages <;> rfl
  · have hpred :
        ((fun lang : Language => strToLower lang.name == strToLower s) ∘ fun lang =>
            { lang with aliases := [] }) =
          fun lang : Language => strToLower lang.name == strToLower s := rfl
    rw [containerGetLanguageByName, containerGetLanguageByName, stripAliases,
      List.find?_map, hpred]
    cases List.find? (fun lang : Language => strToLower lang.name == strToLower s)
        c.languages <;> rfl

/-- C5 witness: for the stored `Rust` and the query `rust`, the
container.rs lookup succeeds, the resolver.rs lookup returns only exact
names, and alias-stripping changes neither. -/
theorem c5_amended_witness :
    (containerGetLanguageByName nameContainer "rust").isSome = true ∧
      (getLanguageByName nameContainer "rust").all (fun r => r.name == "rust") = true ∧
      (getLanguageByName (stripAliases nameContainer) "rust").isSome =
        (getLanguageByName nameContainer "rust").isSome ∧
      (containerGetLanguageByName (stripAliases nameContainer) "rust").isSome =
        (containerGetLanguageByName nameContainer "rust").isSome :=
  c5_amended nameContainer "rust" rustLang (List.mem_singleton.mpr rfl) (by decide)

/-! ## Claim C6 -/

/-- C6 counterexample: the corpus value `.C` (real in GitHub's corpus, for
C++) is stored as the uppercase `C`, and lookup is verbatim: `foo.C` finds
the language while `foo.c` finds nothing. Neither the stored value nor the
query is lowercased. -/
theorem c6_counterexample :
    cppLang.extensions = ["C"] ∧
      ("C").data.any Char.isUpper = true ∧
      getLanguagesByExtension cppContainer "foo.C" = some [cppLang] ∧
      getLanguagesByExtension cppContainer "foo.c" = none := by
  exact ⟨rfl, rfl, rfl, rfl⟩

/-- C6 (amended): loading strips the first dot of each YAML extension value
(so a leading dot is removed) but preserves every remaining character —
including case — and extension lookup compares the path's extension
verbatim against the stored values. -/
theorem c6_amended :
    (∀ d : GhLanguageDef,
        (ghTryInto d).extensions = (d.extensions.getD []).map replacenDot) ∧
      (∀ cs : List Char, replacenDot ⟨'.' :: cs⟩ = ⟨cs⟩) ∧
      (∀ (s : String) (ch : Char), ch ∈ (replacenDot s).data → ch ∈ s.data) ∧
      (∀ (c : InMemoryLanguageContainer) (file e : String)
          (ls : List Language) (L : Language),
        extensionOf file = some e → getLanguagesByExtension c file = some ls →
          L ∈ ls → L.extensions.contains e = true) := by
  refine ⟨fun d => rfl, fun cs => rfl, ?_, ?_⟩
  · intro s ch h
    exact mem_of_mem_removeFirstChar h
  · intro c file e ls L hext hlook hmem
    rw [getLanguagesByExtension, hext] at hlook
    simp only at hlook
    by_cases hempty :
        (c.languages.filter (fun lang => lang.extensions.contains e)).isEmpty
    · rw [if_pos hempty] at hlook
      cases hlook
    · rw [if_neg hempty] at hlook
      cases hlook
      exact (List.mem_filter.mp hmem).2

/-- C6 witness: the uppercase `C` of `.C` survives into the store, and every
member of a successful `foo.C` lookup carries that extension verbatim. -/
theorem c6_amended_witness :
    ('C' ∈ (".C").data) ∧ cppLang.extensions.contains "C" = true := by
  constructor
  · exact c6_amended.2.2.1 ".C" 'C' (by decide)
  · exact c6_amended.2.2.2 cppContainer "foo.C" "C" [cppLang] cppLang rfl rfl
      (List.mem_singleton.mpr rfl)

/-! ## Claim C4 -/

/-- C4 counterexample: with a first rule whose matcher does not compile and
a second that compiles and matches, `resolve_language_by_content` aborts
with `PatternCompileError` instead of skipping to the second rule — which,
run alone, resolves the language. -/
theorem c4_counterexample :
    resolve_language_by_content contentContainer rcGood rmTrue "f.h" (some "txt") =
        .error .PatternCompileError ∧
      contentLoop contentContainer rcGood rmTrue "txt" [ruleGood] =
        .ok (some objcLang) := by
  exact ⟨rfl, rfl⟩

/-- C4 (amended): a rule whose matcher fails to compile aborts
`resolve_language_by_content` with `PatternCompileError`, leaving the
remaining rules unevaluated; but `resolve_language` discards any content
error (`if let Ok`), so no per-rule compile failure ever surfaces from
`resolve_language` itself. -/
theorem c4_amended :
    (∀ (c : InMemoryLanguageContainer) (rc : String → Bool)
        (rm : String → String → Option Bool) (content : String)
        (r : HeuristicRule) (rs : List HeuristicRule),
      rc (joinPatterns r.patterns) = false →
        contentLoop c rc rm content (r :: rs) = .error .PatternCompileError) ∧
      (∀ (c : InMemoryLanguageContainer) (rc : String → Bool)
          (rm : String → String → Option Bool)
          (iter : List (String × Nat) → List (String × Nat))
          (file : String) (bytes : Option (List Nat)) (content : Option String),
        resolve_language c rc rm iter file bytes content ≠
          some (.error .PatternCompileError)) := by
  constructor
  · intro c rc rm content r rs hrc
    rw [contentLoop, if_pos hrc]
  · intro c rc rm iter file bytes content h
    cases bytes with
    | none => simp [resolve_language, is_binary] at h
    | some bs =>
      cases hany : (bs.take 8000).any (fun b => b == 0) with
      | true => simp [resolve_language, is_binary, hany] at h
      | false =>
        cases hw : selectWinner (iter (collectVotes c rc rm file content)) with
        | none => simp [resolve_language, is_binary, hany, hw] at h
        | some name =>
          cases hg : getLanguageByName c name with
          | none => simp [resolve_language, is_binary, hany, hw, hg] at h
          | some lang => simp [resolve_language, is_binary, hany, hw, hg] at h

/-- C4 witness: applied to the two-rule container, the failing first rule
aborts the loop, and the full resolver never reports a compile error. -/
theorem c4_amended_witness :
    contentLoop contentContainer rcGood rmTrue "txt" [ruleBad] =
        .error .PatternCompileError ∧
      resolve_language contentContainer rcGood rmTrue id "f.h" (some [104])
          (some "txt") ≠ some (.error .PatternCompileError) := by
  constructor
  · exact c4_amended.1 contentContainer rcGood rmTrue "txt" ruleBad [] rfl
  · exact c4_amended.2 contentContainer rcGood rmTrue id "f.h" (some [104])
      (some "txt")

/-! ## Claim C9 -/

/-- C9: the env loop discards leading option (`^-[A-Za-z]+$`) and variable
(`^\$[A-Za-z_]+$`) fields of the tail, stopping at the first other field or
when only two fields (one tail field) remain — expressed as dropping the
matching prefix capped at one-less-than-the-tail-length — and the concrete
line `#!/usr/bin/env -S node --experimental` yields the interpreter `node`
whatever the multi-line-exec continuation would say. -/
theorem c9_env_discard :
    (∀ (t0 : String) (ts : List String),
        envStrip (t0 :: ts) =
          (t0 :: ts).drop
            (min ((t0 :: ts).takeWhile isEnvDiscardable).length
              ((t0 :: ts).length - 1))) ∧
      (∀ mlexec : String,
        resolveShebangInterpreter "#!/usr/bin/env -S node --experimental" mlexec =
          some (some "node")) := by
  constructor
  · intro t0 ts
    induction ts generalizing t0 with
    | nil =>
      simp [envStrip]
    | cons t1 ts' ih =>
      by_cases hd : isEnvDiscardable t0
      · rw [envStrip, if_pos hd, ih t1, List.takeWhile_cons_of_pos hd]
        have harith :
            min ((t0 :: List.takeWhile isEnvDiscardable (t1 :: ts')).length)
                ((t0 :: t1 :: ts').length - 1) =
              (min ((List.takeWhile isEnvDiscardable (t1 :: ts')).length)
                ((t1 :: ts').length - 1)) + 1 := by
          simp only [List.length_cons]
          omega
        rw [harith, List.drop_succ_cons]
      · rw [envStrip, if_neg hd]
        rw [List.takeWhile_cons_of_neg hd]
        simp
  · intro mlexec
    rfl

/-! ## Claim C8 -/

/-- C8: `is_binary` inspects only the first 8000 bytes and holds exactly
when one of them is NUL, fails with the IO error when the file is
unreadable, and a binary verdict short-circuits `resolve_language` to
`Ok(None)` for every container, oracle, iteration order and content — no
other evidence source is consulted. -/
theorem c8_binary_short_circuit :
    (∀ bs : List Nat, (is_binary (some bs) = .ok true ↔ ∃ b ∈ bs.take 8000, b = 0)) ∧
      is_binary none = .error .IOError ∧
      (∀ (c : InMemoryLanguageContainer) (rc : String → Bool)
          (rm : String → String → Option Bool)
          (iter : List (String × Nat) → List (String × Nat))
          (file : String) (bytes : Option (List Nat)) (content : Option String),
        is_binary bytes = .ok true →
          resolve_language c rc rm iter file bytes content = some (.ok none)) := by
  refine ⟨?_, rfl, ?_⟩
  · intro bs
    rw [is_binary]
    constructor
    · intro h
      have hany : (bs.take 8000).any (fun b => b == 0) = true := by
        cases hx : (bs.take 8000).any (fun b => b == 0) with
        | true => rfl
        | false => rw [hx] at h; cases h
      rcases List.any_eq_true.mp hany with ⟨b, hb, hb0⟩
      exact ⟨b, hb, by simpa using hb0⟩
    · rintro ⟨b, hb, rfl⟩
      have : (bs.take 8000).any (fun b => b == 0) = true :=
        List.any_eq_true.mpr ⟨0, hb, rfl⟩
      rw [this]
  · intro c rc rm iter file bytes content h
    rw [resolve_language, h]

/-- C8 witness: a file starting with a NUL byte is binary, and the resolver
answers `Ok(None)` on it. -/
theorem c8_binary_witness :
    is_binary (some [0, 104, 105]) = .ok true ∧
      resolve_language tieContainer rcGood rmTrue id "f.x" (some [0, 104, 105])
          (some "hi") = some (.ok none) := by
  constructor
  · rfl
  · exact c8_binary_short_circuit.2.2 tieContainer rcGood rmTrue id "f.x"
      (some [0, 104, 105]) (some "hi") rfl

/-! ## Claim C1 -/

/-- C1 counterexample: for the file `script` whose first line is
`#!/usr/bin/env python3`, the shebang parser extracts `python3` and the
interpreter index maps it to Python — yet `resolve_language`, which never
invokes the shebang source, returns `Err(LanguageNotFound)` instead of
Python. -/
theorem c1_counterexample :
    resolveShebangInterpreter "#!/usr/bin/env python3" "sh" = some (some "python3") ∧
      getLanguagesByInterpreter scriptContainer "python3" = some [pythonLang] ∧
      resolve_language scriptContainer rcGood rmTrue id "script"
          (some (asciiBytes "#!/usr/bin/env python3\n"))
          (some "#!/usr/bin/env python3\n") =
        some (.error .LanguageNotFound) := by
  exact ⟨rfl, rfl, rfl⟩

/-- C1 (amended): `resolve_language` accumulates one vote per candidate from
each evidence source that yields candidates, but its sources are filename,
extension and content heuristics only — the shebang source is never
consulted. Whenever those three yield nothing, the call fails with
`LanguageNotFound` no matter what the interpreter index would have said. -/
theorem c1_no_shebang_votes :
    ∀ (c : InMemoryLanguageContainer) (rc : String → Bool)
      (rm : String → String → Option Bool)
      (iter : List (String × Nat) → List (String × Nat))
      (file : String) (bytes : Option (List Nat)) (content : Option String),
      (∀ l, (iter l).Perm l) →
      is_binary bytes = .ok false →
      getLanguagesByFilename c file = none →
      getLanguagesByExtension c file = none →
      (∀ L, resolve_language_by_content c rc rm file content ≠ .ok (some L)) →
      resolve_language c rc rm iter file bytes content =
        some (.error .LanguageNotFound) := by
  intro c rc rm iter file bytes content hiter hbin hfn hext hcontent
  have hvotes : collectVotes c rc rm file content = [] := by
    cases hc : resolve_language_by_content c rc rm file content with
    | error e =>
      simp [collectVotes, resolve_languages_by_filename, hfn,
        resolve_languages_by_extension, hext, hc]
    | ok cand =>
      cases cand with
      | none =>
        simp [collectVotes, resolve_languages_by_filename, hfn,
          resolve_languages_by_extension, hext, hc]
      | some L => exact absurd hc (hcontent L)
  have hempty : iter [] = [] := (hiter []).eq_nil
  simp only [resolve_language, hbin, hvotes, hempty]
  rfl

/-- C1 witness: the `script` scenario discharges every hypothesis — the file
is not binary and carries no filename, extension or content evidence — and
the resolver indeed answers `LanguageNotFound`. -/
theorem c1_no_shebang_votes_witness :
    resolve_language scriptContainer rcGood rmTrue id "script"
        (some (asciiBytes "#!/usr/bin/env python3\n"))
        (some "#!/usr/bin/env python3\n") =
      some (.error .LanguageNotFound) := by
  exact c1_no_shebang_votes scriptContainer rcGood rmTrue id "script"
    (some (asciiBytes "#!/usr/bin/env python3\n"))
    (some "#!/usr/bin/env python3\n")
    (fun l => List.Perm.refl l) (by rfl) (by rfl) (by rfl)
    (fun L h => Except.noConfusion ((rfl :
      resolve_language_by_content scriptContainer rcGood rmTrue "script"
          (some "#!/usr/bin/env python3\n") =
        .error .LanguageNotFound).symm.trans h))

/-! ## Claim C2 -/

/-- C2 counterexample: `Alpha` is registered before `Beta`; both tie on the
extension vote for `f.x`. Under insertion-order `HashMap` iteration the
resolver picks `Beta` — the later registration — because the ascending
stable sort is reversed; and the reversed iteration order picks `Alpha`, so
the outcome depends on the unspecified iteration order. Both the
earliest-registered tie-break and determinism fail. -/
theorem c2_counterexample :
    tieContainer.languages = [langA, langB] ∧
      resolve_language tieContainer rcGood rmTrue id "f.x" (some [104]) none =
        some (.ok (some langB)) ∧
      langB.name ≠ langA.name ∧
      selectWinner [("Alpha", 2), ("Beta", 2)] = some "Beta" ∧
      selectWinner (List.reverse [("Alpha", 2), ("Beta", 2)]) = some "Alpha" := by
  refine ⟨rfl, rfl, by simp [langA, langB], rfl, rfl⟩

/-- C2 (amended): the winner does carry a maximal vote count — the selection
stable-sorts the iterated pairs ascending by count, reverses, and takes the
head — but among tied counts the head is the **last** tied pair of the
iteration order, and `HashMap` iteration order is unspecified, so the
earliest-registered tie-break and cross-run determinism are not provided. -/
theorem c2_winner_has_max_votes :
    ∀ (l : List (String × Nat)) (name : String),
      selectWinner l = some name →
      ∃ v, (name, v) ∈ l ∧ ∀ p ∈ l, p.2 ≤ v := by
  intro l name h
  rw [selectWinner] at h
  rcases Option.map_eq_some'.mp h with ⟨p, hp, hname⟩
  have hlast : (sortByVote l).getLast? = some p := by
    rw [← List.head?_reverse]
    exact hp
  have hmem : p ∈ sortByVote l := mem_of_getLast?_eq hlast
  have hperm : (sortByVote l).Perm l := List.perm_insertionSort voteLE l
  have hsorted : List.Sorted voteLE (sortByVote l) :=
    List.sorted_insertionSort voteLE l
  refine ⟨p.2, ?_, ?_⟩
  · have : (name, p.2) = p := by
      rw [← hname]
    rw [this]
    exact hperm.mem_iff.mp hmem
  · intro q hq
    exact sorted_getLast?_max (sortByVote l) p hsorted hlast q
      (hperm.mem_iff.mpr hq)

/-- C2 witness: on the two-candidate vote list with counts 2 and 1 the
selected `Alpha` carries the maximal count. -/
theorem c2_winner_witness :
    ∃ v, ("Alpha", v) ∈ [("Alpha", 2), ("Beta", 1)] ∧
      ∀ p ∈ [("Alpha", 2), ("Beta", 1)], p.2 ≤ v :=
  c2_winner_has_max_votes [("Alpha", 2), ("Beta", 1)] "Alpha" rfl

end Linguist
